import Mathlib

/-!
Verification development for the deferred-loader-plugin repository.

The JavaScript sources are shallowly embedded as Lean functions:

- `src/unnamed/part_000` (the `LoaderResolver` module required as
  `./loader-resolver`): `normalizePath`, `loadLoader`, `resolveName`,
  `resolvePath`, `resolveLoaderFromCache`, `resolveLoader`.
- `src/lib/loader-registry.js` (`LoaderRegistry`): `getLoaderByPath`,
  `getLoaderByName`, `registerLoader`.
- `src/lib/deferred-loader-plugin.js` (`DeferredLoaderPlugin`): the
  before-resolve hook's declared-name list, `tryAndParseLoader`, the
  after-resolve per-path classification step, and `emit` together with the
  emit hook's continuation behaviour.

Modelling conventions: JavaScript strings are `List Char`; an absent object
property is `none`; values the sources only pass around or compare (plugin
options, the compilation object, callback error values) are `Nat` aliases;
a computation that can throw a `TypeError` returns `Except`.
-/

namespace DeferredLoader

/-- JavaScript string values, as lists of characters. -/
abbrev JsStr := List Char

/-- Stand-in for the options value a plugin instance carries
(`this.options.options`); the sources only pass it around. -/
abbrev OptionsVal := Nat

/-- Stand-in for the webpack compilation object; passed through without
inspection. -/
abbrev Compilation := Nat

/-- Stand-in for an error value signalled through a node-style callback. -/
abbrev ErrVal := Nat

/-- Exceptions the embedded code can throw (property access on `undefined`,
calling a value that is not a function). -/
inductive JsErr where
  | typeError
deriving DecidableEq

/-- Shape of a JavaScript property value as far as the sources test it:
absent (`undefined`), a function value, or some other value with its
truthiness. -/
inductive JsProp where
  | undef
  | fn
  | other (truthy : Bool)
deriving DecidableEq

/-- Truthiness combined with a function-type test, as in
`loader.emitDeferred && typeof loader.emitDeferred === 'function'`: it holds
exactly for a function value (function values are truthy). -/
def JsProp.isCallable : JsProp → Bool
  | .fn => true
  | _ => false

/-- A loaded loader module, as far as the plugin inspects it: its
`emitDeferred` property and its `options` property. -/
structure LoaderModule where
  emitDeferred : JsProp
  optionsFn : JsProp
deriving DecidableEq

/-- One resolved short-name/path pair, the object built by
`LoaderResolver.prototype.resolveLoader` and stored in
`LoaderResolver.loaders`. -/
structure Binding where
  name : JsStr
  path : JsStr
deriving DecidableEq

/-- The `LoaderResolver.loaders` object: bindings keyed by path, in key
insertion order. -/
abbrev ResolverCache := List (JsStr × Binding)

/-- Property read `this.loaders[path]` on the resolver cache object. -/
def cacheGet (c : ResolverCache) (p : JsStr) : Option Binding :=
  c.lookup p

/-- JavaScript line terminators, which `.` in a regular expression never
matches: newline, carriage return, U+2028, U+2029. -/
def isLineTerminator (c : Char) : Bool :=
  c == '\n' || c == '\r' || c == Char.ofNat 8232 || c == Char.ofNat 8233

/-- Tail of the first match of the regular expression `\?.*`: after the
question mark, `.*` greedily consumes characters up to (not including) the
first line terminator, and the whole match is replaced by the empty string,
so the characters from the terminator on survive. -/
def dropQueryTail : JsStr → JsStr
  | [] => []
  | c :: cs => if isLineTerminator c then c :: cs else dropQueryTail cs

/-- Embedding of `LoaderResolver.prototype.normalizePath`
(src/unnamed/part_000 lines 104-106): `path.replace(/\?.*/, '')` deletes the
first match of `\?.*`; without a question mark the path is unchanged. -/
def normalizePath : JsStr → JsStr
  | [] => []
  | c :: cs => if c == '?' then dropQueryTail cs else c :: normalizePath cs

/-- Embedding of `LoaderResolver.prototype.loadLoader` (lines 88-91): the
module system (`require`) is the function argument; the path is stripped of
query parameters first. -/
def loadLoader (requireFn : JsStr → LoaderModule) (p : JsStr) : LoaderModule :=
  requireFn (normalizePath p)

/-- Embedding of `LoaderResolver.prototype.resolveName` (lines 57-59):
`this.loaders[path].name`; the member access throws a `TypeError` when the
path is unbound (`this.loaders[path]` is `undefined`). -/
def resolveName (c : ResolverCache) (p : JsStr) : Except JsErr JsStr :=
  match cacheGet c p with
  | some b => .ok b.name
  | none => .error .typeError

/-- Property read `key.name` where `key` is a string primitive: a JavaScript
string has no own `name` property, so the read yields `undefined`. -/
def strDotName (_s : JsStr) : Option JsStr :=
  none

/-- Embedding of `LoaderResolver.prototype.resolvePath` (lines 72-76):
filter `Object.keys(this.loaders)` by `loader.name === name`, where `loader`
ranges over the key strings, and take the first element. -/
def resolvePath (c : ResolverCache) (nm : JsStr) : Option JsStr :=
  ((c.map Prod.fst).filter (fun k => strDotName k == some nm)).head?

/-- Composition tested by the specification's round-trip property:
`resolveName(resolvePath(name))`. When `resolvePath` yields `undefined`, the
lookup `this.loaders[undefined]` misses and the `.name` access throws. -/
def roundTrip (c : ResolverCache) (nm : JsStr) : Except JsErr JsStr :=
  match resolvePath c nm with
  | some p => resolveName c p
  | none => .error .typeError

/-- Strict equality `self.loaders[path] === name` between a stored binding
object and a name string: `===` between an object and a string is always
false. -/
def objStrictEqStr (_b : Binding) (_s : JsStr) : Bool :=
  false

/-- Embedding of `LoaderResolver.prototype.resolveLoaderFromCache`
(lines 155-161): filter `Object.keys(this.loaders)` by
`self.loaders[path] === name` and take the first element (a path key, when
any matches). -/
def resolveLoaderFromCache (c : ResolverCache) (nm : JsStr) : Option JsStr :=
  ((c.map Prod.fst).filter (fun p =>
    match cacheGet c p with
    | some b => objStrictEqStr b nm
    | none => false)).head?

/-- Settlement of the promise built by `resolveLoader`: a cache hit is
returned as-is via `q.resolve`, otherwise the resolver callback either
rejects with the error or fulfils with `{ name, path }`. -/
inductive ResolveOutcome where
  | fromCache (cached : JsStr)
  | resolvedB (b : Binding)
  | rejectedE (e : ErrVal)
deriving DecidableEq

/-- Trace of one `LoaderResolver.prototype.resolveLoader` call: how often the
external resolver service ran, and how the returned promise settled. -/
structure ResolveLoaderRun where
  externalCalls : Nat
  outcome : ResolveOutcome
deriving DecidableEq

/-- Embedding of `LoaderResolver.prototype.resolveLoader` (lines 121-142).
The external service `resolver.resolve(context, name, cb)` is the function
argument; on a cache hit it is not called, otherwise it is called once. In
the callback, `deferred.reject(error)` settles the promise first on an
error, so the unguarded `deferred.resolve(...)` after it is a no-op. -/
def resolveLoader (c : ResolverCache) (nm : JsStr) (context : JsStr)
    (resolverFn : JsStr → JsStr → Except ErrVal JsStr) : ResolveLoaderRun :=
  match resolveLoaderFromCache c nm with
  | some cached => ⟨0, .fromCache cached⟩
  | none =>
    match resolverFn context nm with
    | .error e => ⟨1, .rejectedE e⟩
    | .ok p => ⟨1, .resolvedB ⟨nm, p⟩⟩

/-- A registry entry as built by
`DeferredLoaderPlugin.prototype.tryAndParseLoader`: the non-capable variant
leaves `name`, `options` and `fnc` absent. -/
structure LoaderRecord where
  path : JsStr
  isDeferredLoader : Bool
  name : Option JsStr := none
  options : Option OptionsVal := none
  fnc : Option LoaderModule := none
deriving DecidableEq

/-- The `LoaderRegistry.loaders` array, in registration order. -/
abbrev Registry := List LoaderRecord

/-- Embedding of `LoaderRegistry.prototype.getLoaderByPath`
(src/lib/loader-registry.js lines 25-29): filter by path, take the first
element. -/
def getLoaderByPath (reg : Registry) (p : JsStr) : Option LoaderRecord :=
  (reg.filter (fun l => l.path == p)).head?

/-- Embedding of `LoaderRegistry.prototype.getLoaderByName` (lines 43-47):
filter by the `name` property (absent on non-capable records), take the
first element. -/
def getLoaderByName (reg : Registry) (nm : Option JsStr) : Option LoaderRecord :=
  (reg.filter (fun l => l.name == nm)).head?

/-- Embedding of `LoaderRegistry.prototype.registerLoader` (lines 61-64):
push the record onto the array. -/
def registerLoader (reg : Registry) (r : LoaderRecord) : Registry :=
  reg ++ [r]

/-- Embedding of the before-resolve hook body
(src/lib/deferred-loader-plugin.js lines 30-48): the array handed to
`loaderResolver.declareLoaders` is literally `[self.options.loader]`;
nothing from the module request contributes to it. -/
def beforeResolveDeclaredNames (cfgLoader : Option JsStr) : List (Option JsStr) :=
  [cfgLoader]

/-- Embedding of `DeferredLoaderPlugin.prototype.tryAndParseLoader`
(lines 138-166). `cfgLoader` and `cfgOptions` are `this.options.loader` and
`this.options.options` (either may be absent); `cache` is the shared
resolver state read by `resolveName`; `requireFn` is the module system. -/
def tryAndParseLoader (cfgLoader : Option JsStr) (cfgOptions : Option OptionsVal)
    (cache : ResolverCache) (requireFn : JsStr → LoaderModule) (p : JsStr) :
    Except JsErr (Option LoaderRecord) :=
  let loader := loadLoader requireFn p
  if loader.emitDeferred.isCallable then
    match resolveName cache p with
    | .error e => .error e
    | .ok loaderName =>
      if cfgLoader != some loaderName then
        .ok none
      else
        .ok (some { path := p, isDeferredLoader := true, name := some loaderName,
                    options := cfgOptions, fnc := some loader })
  else
    .ok (some { path := p, isDeferredLoader := false })

/-- Embedding of one iteration of the after-resolve hook's `forEach` body
(src/lib/deferred-loader-plugin.js lines 55-77), restricted to its effect on
the registry: skip a path that already has a record, otherwise classify it
and register any record produced. The optional `loader.fnc.options(...)`
call is a side effect on the loader module, not on the registry. -/
def classifyPath (cfgLoader : Option JsStr) (cfgOptions : Option OptionsVal)
    (cache : ResolverCache) (requireFn : JsStr → LoaderModule)
    (reg : Registry) (p : JsStr) : Except JsErr Registry :=
  if (getLoaderByPath reg p).isSome then
    .ok reg
  else
    match tryAndParseLoader cfgLoader cfgOptions cache requireFn p with
    | .error e => .error e
    | .ok none => .ok reg
    | .ok (some r) => .ok (registerLoader reg r)

/-- Settlement state of the deferred promise built in `emit`. -/
inductive SettleState where
  | fulfilled
  | rejectedE (e : ErrVal)
deriving DecidableEq

/-- Settlement produced by the callback handed to `emitDeferred`:
`if (error) { deferred.reject(error); } deferred.resolve();` — on an error
the rejection settles the promise first and the unguarded `resolve()` is a
no-op. -/
def emitPromise (sig : Option ErrVal) : SettleState :=
  match sig with
  | some e => .rejectedE e
  | none => .fulfilled

/-- One call of a deferred entry point: which record's entry point ran, with
the compilation object and options handed over. -/
structure Invocation where
  path : JsStr
  compilation : Compilation
  options : Option OptionsVal
deriving DecidableEq

/-- Result of `DeferredLoaderPlugin.prototype.emit`: the promise settlement,
or a synchronous exception escaping before any promise exists. -/
inductive EmitResult where
  | settled (st : SettleState)
  | thrown (e : JsErr)
deriving DecidableEq

/-- Trace of one `emit` call: the deferred entry points invoked and the
overall result. -/
structure EmitTrace where
  invocations : List Invocation
  result : EmitResult
deriving DecidableEq

/-- Embedding of `DeferredLoaderPlugin.prototype.emit` (lines 104-116).
`sig` gives, per record path, the error value (or `none`) that record's
deferred entry point signals through its callback. The expression
`loader.fnc.emitDeferred(...)` throws a `TypeError` when no record matched
the configured name (`loader` is `undefined`), when the record has no `fnc`
property (the non-capable shape), or when `emitDeferred` is not callable. -/
def emitRun (reg : Registry) (cfgLoader : Option JsStr) (comp : Compilation)
    (sig : JsStr → Option ErrVal) : EmitTrace :=
  match getLoaderByName reg cfgLoader with
  | none => ⟨[], .thrown .typeError⟩
  | some r =>
    match r.fnc with
    | none => ⟨[], .thrown .typeError⟩
    | some m =>
      if m.emitDeferred.isCallable then
        ⟨[⟨r.path, comp, r.options⟩], .settled (emitPromise (sig r.path))⟩
      else
        ⟨[], .thrown .typeError⟩

/-- Outcome at the emit hook's continuation `done`
(src/lib/deferred-loader-plugin.js lines 83-91). -/
inductive HookOutcome where
  | doneCalled (e : Option ErrVal)
  | escaped (exn : JsErr)
deriving DecidableEq

/-- Embedding of the emit hook wiring:
`self.emit(compilation).then(ok).catch(err)` calls `done()` on fulfilment
and `done(error)` on rejection; a synchronous throw inside `self.emit`
escapes the hook before `done` can be reached. -/
def emitHook (reg : Registry) (cfgLoader : Option JsStr) (comp : Compilation)
    (sig : JsStr → Option ErrVal) : HookOutcome :=
  match (emitRun reg cfgLoader comp sig).result with
  | .thrown exn => .escaped exn
  | .settled .fulfilled => .doneCalled none
  | .settled (.rejectedE e) => .doneCalled (some e)

/-- Reading of the specification sentence behind claim C10, stated from the
specification's words for comparison with `normalizePath`: remove the
substring from the first question mark onward. -/
def specStripQuery (p : JsStr) : JsStr :=
  p.takeWhile (fun c => c != '?')

/-- Accumulator-passing splitter for delimiter-separated chain strings. -/
def splitBangAux (acc : JsStr) : JsStr → List JsStr
  | [] => [acc.reverse]
  | c :: cs => if c == '!' then acc.reverse :: splitBangAux [] cs
               else splitBangAux (c :: acc) cs

/-- Split a loader chain string at each delimiter character, per the
specification's description of chains as delimiter-separated sequences of
names and paths. -/
def splitBang (p : JsStr) : List JsStr :=
  splitBangAux [] p

/-- Reading of the specification sentence behind claim C2, stated from the
specification's words for comparison with `beforeResolveDeclaredNames`: the
configured name together with every name appearing in the module's
delimiter-separated loader chain string. -/
def specDeclaredNames (cfgLoader : JsStr) (chain : JsStr) : List JsStr :=
  cfgLoader :: splitBang chain

/-- Sample short name used by concrete witnesses. -/
def fooName : JsStr := "foo".toList

/-- Sample short name of a second, differently configured instance. -/
def barName : JsStr := "bar".toList

/-- Sample canonical path used by concrete witnesses. -/
def fooPath : JsStr := "/abs/foo-loader.js".toList

/-- Sample deferred-capable loader module. -/
def capableModule : LoaderModule := ⟨.fn, .undef⟩

/-- Sample loader module with no deferred entry point. -/
def plainModule : LoaderModule := ⟨.undef, .undef⟩

/-- Sample capable registry record for `fooName`. -/
def fooRecord : LoaderRecord :=
  { path := fooPath, isDeferredLoader := true, name := some fooName,
    options := some 1, fnc := some capableModule }

/-- Sample non-capable registry record at a distinct path. -/
def plainRecord : LoaderRecord :=
  { path := "/abs/plain.js".toList, isDeferredLoader := false }

/-- Sample resolver cache binding `fooPath` to `fooName`. -/
def fooCache : ResolverCache := [(fooPath, ⟨fooName, fooPath⟩)]

/- Helper lemmas shared by the claim proofs. -/

/-- Filtering with a predicate that is false everywhere yields the empty
list. -/
theorem filter_false_of_all {α : Type} (p : α → Bool) (l : List α)
    (h : ∀ a, p a = false) : l.filter p = [] := by
  induction l with
  | nil => rfl
  | cons a t ih => simp [List.filter_cons, h a, ih]

/-- A record returned by `getLoaderByName` is a member of the registry. -/
theorem mem_of_getLoaderByName {reg : Registry} {nm : Option JsStr}
    {r : LoaderRecord} (h : getLoaderByName reg nm = some r) : r ∈ reg := by
  unfold getLoaderByName at h
  have hmem : r ∈ reg.filter (fun l => l.name == nm) := by
    cases hf : reg.filter (fun l => l.name == nm) with
    | nil => rw [hf] at h; exact absurd h (by simp)
    | cons a t =>
      rw [hf] at h
      simp only [List.head?_cons, Option.some.injEq] at h
      subst h
      exact List.mem_cons_self a t
  exact List.mem_of_mem_filter hmem

/-- Any record produced by `tryAndParseLoader` carries the path it was asked
about. -/
theorem tryAndParseLoader_path {cfgLoader : Option JsStr}
    {cfgOptions : Option OptionsVal} {cache : ResolverCache}
    {requireFn : JsStr → LoaderModule} {p : JsStr} {r : LoaderRecord}
    (h : tryAndParseLoader cfgLoader cfgOptions cache requireFn p = .ok (some r)) :
    r.path = p := by
  unfold tryAndParseLoader at h
  dsimp only at h
  split at h
  · split at h
    · exact absurd h (by simp)
    · split at h
      · simp at h
      · simp only [Except.ok.injEq, Option.some.injEq] at h
        rw [← h]
  · simp only [Except.ok.injEq, Option.some.injEq] at h
    rw [← h]

/-- C3: the name-to-path-to-name round trip never succeeds on the code.
`resolvePath` filters the key strings of the cache by a `name` property that
string primitives do not have, so it returns no path for any name — even one
whose binding is cached — and the follow-up `resolveName` on the undefined
result throws a `TypeError` instead of returning the original name. -/
theorem c3_round_trip_never_succeeds (c : ResolverCache) (nm : JsStr) :
    resolvePath c nm = none ∧ roundTrip c nm = Except.error JsErr.typeError := by
  have hall : ∀ k : JsStr, (strDotName k == some nm) = false := fun k => rfl
  have hp : resolvePath c nm = none := by
    unfold resolvePath
    rw [filter_false_of_all _ _ hall]
    rfl
  refine ⟨hp, ?_⟩
  unfold roundTrip
  rw [hp]

/-- C4: the cache can never be hit — `resolveLoaderFromCache` compares each
stored binding object to the name string with strict equality, which is
false for every object/string pair — so `resolveLoader` invokes the external
resolver service exactly once for every name, cached or not, instead of zero
times for already-cached names. -/
theorem c4_cached_name_still_calls_resolver (c : ResolverCache) (nm : JsStr)
    (context : JsStr) (resolverFn : JsStr → JsStr → Except ErrVal JsStr) :
    resolveLoaderFromCache c nm = none ∧
    (resolveLoader c nm context resolverFn).externalCalls = 1 := by
  have hall : ∀ p : JsStr,
      (match cacheGet c p with
       | some b => objStrictEqStr b nm
       | none => false) = false := by
    intro p
    cases cacheGet c p <;> rfl
  have hc : resolveLoaderFromCache c nm = none := by
    unfold resolveLoaderFromCache
    rw [filter_false_of_all _ _ hall]
    rfl
  refine ⟨hc, ?_⟩
  unfold resolveLoader
  rw [hc]
  cases hr : resolverFn context nm <;> rfl

/-- C1: when the configured target name has no record in the registry, the
emit operation does not complete cleanly — `getLoaderByName` yields no
record, `loader.fnc` is a property read on `undefined` and throws, so the
emit hook's continuation is never invoked at all; the code crashes instead
of activating zero loaders and succeeding. -/
theorem c1_emit_throws_when_name_has_no_record (reg : Registry)
    (cfgLoader : Option JsStr) (comp : Compilation) (sig : JsStr → Option ErrVal)
    (h : getLoaderByName reg cfgLoader = none) :
    emitRun reg cfgLoader comp sig = ⟨[], .thrown .typeError⟩ ∧
    emitHook reg cfgLoader comp sig = .escaped .typeError := by
  have h1 : emitRun reg cfgLoader comp sig = ⟨[], .thrown .typeError⟩ := by
    unfold emitRun
    rw [h]
  refine ⟨h1, ?_⟩
  unfold emitHook
  rw [h1]

/-- Closed instance of the C1 hypothesis and conclusion: a coordinator
configured for `barName` over a registry holding only the `fooName` record. -/
theorem c1_witness :
    getLoaderByName [fooRecord] (some barName) = none ∧
    (emitRun [fooRecord] (some barName) 0 (fun _ => none) = ⟨[], .thrown .typeError⟩ ∧
     emitHook [fooRecord] (some barName) 0 (fun _ => none) = .escaped .typeError) :=
  ⟨by decide, c1_emit_throws_when_name_has_no_record _ _ _ _ (by decide)⟩

/-- C7: once a record with a callable deferred entry point is selected for
the configured name, the emit hook's continuation receives exactly the error
the entry point signals through its callback — `done(error)` on a signalled
error, `done()` when no error is signalled. -/
theorem c7_continuation_receives_signal (reg : Registry)
    (cfgLoader : Option JsStr) (comp : Compilation) (sig : JsStr → Option ErrVal)
    (r : LoaderRecord) (m : LoaderModule)
    (h1 : getLoaderByName reg cfgLoader = some r)
    (h2 : r.fnc = some m) (h3 : m.emitDeferred = .fn) :
    emitHook reg cfgLoader comp sig = .doneCalled (sig r.path) := by
  simp only [emitHook, emitRun, h1, h2, h3]
  cases hs : sig r.path <;> simp [JsProp.isCallable, emitPromise, hs]

/-- Closed instance of the C7 hypotheses and conclusion, with the deferred
entry point signalling the error value 7. -/
theorem c7_witness :
    (getLoaderByName [fooRecord] (some fooName) = some fooRecord ∧
     fooRecord.fnc = some capableModule ∧ capableModule.emitDeferred = .fn) ∧
    emitHook [fooRecord] (some fooName) 0 (fun _ => some 7) =
      .doneCalled (some 7) :=
  ⟨⟨by decide, by decide, by decide⟩,
   c7_continuation_receives_signal [fooRecord] (some fooName) 0 (fun _ => some 7)
     fooRecord capableModule (by decide) (by decide) (by decide)⟩

/-- C9: a loader module whose `emitDeferred` property is not a function
value is classified as the non-capable record for its path, for every
coordinator configuration — never a capable record, never a skip, never an
error. -/
theorem c9_nondeferred_always_noncapable (cfgLoader : Option JsStr)
    (cfgOptions : Option OptionsVal) (cache : ResolverCache)
    (requireFn : JsStr → LoaderModule) (p : JsStr)
    (h : (loadLoader requireFn p).emitDeferred.isCallable = false) :
    tryAndParseLoader cfgLoader cfgOptions cache requireFn p =
      .ok (some { path := p, isDeferredLoader := false }) := by
  simp [tryAndParseLoader, h]

/-- Closed instance of the C9 hypothesis and conclusion: a module with no
`emitDeferred` property, inspected by an instance configured for `barName`. -/
theorem c9_witness :
    (loadLoader (fun _ => plainModule) fooPath).emitDeferred.isCallable = false ∧
    tryAndParseLoader (some barName) none fooCache (fun _ => plainModule) fooPath =
      .ok (some { path := fooPath, isDeferredLoader := false }) :=
  ⟨by decide,
   c9_nondeferred_always_noncapable (some barName) none fooCache
     (fun _ => plainModule) fooPath (by decide)⟩

/-- C5: with a loaded module exposing a callable deferred entry point and a
resolver binding for the path, classification produces and registers the
capable record exactly when the resolved short name equals the configured
target name; under any other configured name it yields no record and the
registry is left unchanged. -/
theorem c5_capable_record_iff_name_matches (cfgLoader : Option JsStr)
    (cfgOptions : Option OptionsVal) (cache : ResolverCache)
    (requireFn : JsStr → LoaderModule) (reg : Registry) (p : JsStr) (b : Binding)
    (hfn : (loadLoader requireFn p).emitDeferred.isCallable = true)
    (hb : cacheGet cache p = some b)
    (hfresh : getLoaderByPath reg p = none) :
    (cfgLoader = some b.name →
      tryAndParseLoader cfgLoader cfgOptions cache requireFn p =
        .ok (some { path := p, isDeferredLoader := true, name := some b.name,
                    options := cfgOptions, fnc := some (loadLoader requireFn p) }) ∧
      classifyPath cfgLoader cfgOptions cache requireFn reg p =
        .ok (registerLoader reg
          { path := p, isDeferredLoader := true, name := some b.name,
            options := cfgOptions, fnc := some (loadLoader requireFn p) })) ∧
    (cfgLoader ≠ some b.name →
      tryAndParseLoader cfgLoader cfgOptions cache requireFn p = .ok none ∧
      classifyPath cfgLoader cfgOptions cache requireFn reg p = .ok reg) := by
  have hres : resolveName cache p = .ok b.name := by
    unfold resolveName
    rw [hb]
  constructor
  · intro hcfg
    have ht : tryAndParseLoader cfgLoader cfgOptions cache requireFn p =
        .ok (some { path := p, isDeferredLoader := true, name := some b.name,
                    options := cfgOptions, fnc := some (loadLoader requireFn p) }) := by
      simp [tryAndParseLoader, hres, hfn, hcfg]
    exact ⟨ht, by simp [classifyPath, hfresh, ht, registerLoader]⟩
  · intro hcfg
    have ht : tryAndParseLoader cfgLoader cfgOptions cache requireFn p = .ok none := by
      simp [tryAndParseLoader, hres, hfn, hcfg]
    exact ⟨ht, by simp [classifyPath, hfresh, ht]⟩

/-- Closed instance of the C5 hypotheses and conclusion, for the instance
whose configured name matches the resolved name of the capable module. -/
theorem c5_witness :
    ((loadLoader (fun _ => capableModule) fooPath).emitDeferred.isCallable = true ∧
     cacheGet fooCache fooPath = some ⟨fooName, fooPath⟩ ∧
     getLoaderByPath [] fooPath = none) ∧
    ((some fooName = some fooName →
       tryAndParseLoader (some fooName) (some 1) fooCache (fun _ => capableModule) fooPath =
         .ok (some { path := fooPath, isDeferredLoader := true, name := some fooName,
                     options := some 1,
                     fnc := some (loadLoader (fun _ => capableModule) fooPath) }) ∧
       classifyPath (some fooName) (some 1) fooCache (fun _ => capableModule) [] fooPath =
         .ok (registerLoader []
           { path := fooPath, isDeferredLoader := true, name := some fooName,
             options := some 1,
             fnc := some (loadLoader (fun _ => capableModule) fooPath) })) ∧
     (some fooName ≠ some fooName →
       tryAndParseLoader (some fooName) (some 1) fooCache (fun _ => capableModule) fooPath =
         .ok none ∧
       classifyPath (some fooName) (some 1) fooCache (fun _ => capableModule) [] fooPath =
         .ok [])) :=
  ⟨⟨by decide, by decide, by decide⟩,
   c5_capable_record_iff_name_matches (some fooName) (some 1) fooCache
     (fun _ => capableModule) [] fooPath ⟨fooName, fooPath⟩
     (by decide) (by decide) (by decide)⟩

/-- C6: when the record selected for the configured name is capable, emit
invokes its deferred entry point exactly once, handing over the compilation
object and the options value attached at registration; a record without a
deferred entry point receives no invocation. -/
theorem c6_capable_record_invoked_once (reg : Registry)
    (cfgLoader : Option JsStr) (comp : Compilation) (sig : JsStr → Option ErrVal)
    (r : LoaderRecord) (m : LoaderModule)
    (h1 : getLoaderByName reg cfgLoader = some r)
    (hcap : r.isDeferredLoader = true)
    (h2 : r.fnc = some m) (h3 : m.emitDeferred = .fn)
    (hnd : (reg.map LoaderRecord.path).Nodup) :
    (emitRun reg cfgLoader comp sig).invocations = [⟨r.path, comp, r.options⟩] ∧
    ∀ r' ∈ reg, r'.isDeferredLoader = false →
      ∀ i ∈ (emitRun reg cfgLoader comp sig).invocations, i.path ≠ r'.path := by
  have hrun : (emitRun reg cfgLoader comp sig).invocations =
      [⟨r.path, comp, r.options⟩] := by
    simp only [emitRun, h1, h2, h3]
    simp [JsProp.isCallable]
  refine ⟨hrun, ?_⟩
  intro r' hr' hr'cap i hi
  rw [hrun] at hi
  simp only [List.mem_singleton] at hi
  subst hi
  intro hpath
  have hrmem : r ∈ reg := mem_of_getLoaderByName h1
  have heq : r = r' := List.inj_on_of_nodup_map hnd hrmem hr' hpath
  rw [heq, hr'cap] at hcap
  cases hcap

/-- Closed instance of the C6 hypotheses and conclusion: a registry holding
the capable `fooName` record and a non-capable record at another path. -/
theorem c6_witness :
    (getLoaderByName [fooRecord, plainRecord] (some fooName) = some fooRecord ∧
     fooRecord.isDeferredLoader = true ∧
     fooRecord.fnc = some capableModule ∧
     capableModule.emitDeferred = .fn ∧
     ([fooRecord, plainRecord].map LoaderRecord.path).Nodup) ∧
    ((emitRun [fooRecord, plainRecord] (some fooName) 0 (fun _ => none)).invocations =
       [⟨fooRecord.path, 0, fooRecord.options⟩] ∧
     ∀ r' ∈ [fooRecord, plainRecord], r'.isDeferredLoader = false →
       ∀ i ∈ (emitRun [fooRecord, plainRecord] (some fooName) 0 (fun _ => none)).invocations,
         i.path ≠ r'.path) :=
  ⟨⟨by decide, by decide, by decide, by decide, by decide⟩,
   c6_capable_record_invoked_once [fooRecord, plainRecord] (some fooName) 0
     (fun _ => none) fooRecord capableModule
     (by decide) (by decide) (by decide) (by decide) (by decide)⟩

/-- C8: the per-path classify step is idempotent and keeps the registry free
of duplicate paths: running the step again on its own output with the same
path changes nothing, path uniqueness is preserved, and whenever the first
occurrence changed the registry the repeat occurrence is caught by the
prior-existence lookup. -/
theorem c8_classify_idempotent (cfgLoader : Option JsStr)
    (cfgOptions : Option OptionsVal) (cache : ResolverCache)
    (requireFn : JsStr → LoaderModule) (reg : Registry) (p : JsStr)
    (reg' : Registry)
    (h : classifyPath cfgLoader cfgOptions cache requireFn reg p = .ok reg') :
    classifyPath cfgLoader cfgOptions cache requireFn reg' p = .ok reg' ∧
    ((reg.map LoaderRecord.path).Nodup → (reg'.map LoaderRecord.path).Nodup) ∧
    (reg' ≠ reg → (getLoaderByPath reg' p).isSome = true) := by
  unfold classifyPath at h
  split at h
  next hg =>
    injection h with h'
    subst h'
    refine ⟨?_, fun hn => hn, fun hne => absurd rfl hne⟩
    unfold classifyPath
    rw [if_pos hg]
  next hg =>
    split at h
    next e heq => exact Except.noConfusion h
    next heq =>
      injection h with h'
      subst h'
      refine ⟨?_, fun hn => hn, fun hne => absurd rfl hne⟩
      unfold classifyPath
      rw [if_neg hg, heq]
    next r heq =>
      injection h with h'
      subst h'
      have hrp : r.path = p := tryAndParseLoader_path heq
      have hnone : getLoaderByPath reg p = none := by
        cases hgp : getLoaderByPath reg p with
        | none => rfl
        | some x => exact absurd (by rw [hgp]; rfl) hg
      have hfilter : reg.filter (fun l => l.path == p) = [] := by
        have hn := hnone
        unfold getLoaderByPath at hn
        exact List.head?_eq_none_iff.mp hn
      have hsome : (getLoaderByPath (registerLoader reg r) p).isSome = true := by
        unfold getLoaderByPath registerLoader
        rw [List.filter_append, hfilter]
        simp [hrp]
      refine ⟨?_, ?_, fun _ => hsome⟩
      · unfold classifyPath
        rw [if_pos hsome]
      · intro hnod
        unfold registerLoader
        rw [List.map_append, List.nodup_append]
        refine ⟨hnod, by simp, ?_⟩
        intro a ha hb
        simp only [List.map_cons, List.map_nil, List.mem_singleton] at hb
        subst hb
        obtain ⟨x, hx, hxa⟩ := List.mem_map.mp ha
        have hforall := List.filter_eq_nil_iff.mp hfilter
        have := hforall x hx
        rw [hxa, hrp] at this
        simp at this

/-- Closed instance of the C8 hypothesis and conclusion: classifying a fresh
path registers a record; the theorem then yields idempotence, uniqueness and
the guard behaviour for the resulting registry. -/
theorem c8_witness :
    classifyPath (some barName) none fooCache (fun _ => plainModule) [] fooPath =
      .ok [{ path := fooPath, isDeferredLoader := false }] ∧
    (classifyPath (some barName) none fooCache (fun _ => plainModule)
         [{ path := fooPath, isDeferredLoader := false }] fooPath =
       .ok [{ path := fooPath, isDeferredLoader := false }] ∧
     ((([] : Registry).map LoaderRecord.path).Nodup →
       (([{ path := fooPath, isDeferredLoader := false }] : Registry).map
          LoaderRecord.path).Nodup) ∧
     (([{ path := fooPath, isDeferredLoader := false }] : Registry) ≠ [] →
       (getLoaderByPath [{ path := fooPath, isDeferredLoader := false }] fooPath).isSome =
         true)) :=
  ⟨rfl,
   c8_classify_idempotent (some barName) none fooCache (fun _ => plainModule)
     [] fooPath [{ path := fooPath, isDeferredLoader := false }] rfl⟩

/-- C2 counterexample: with configured name `fooName` and a module whose
loader chain string is css!./x, the specification's name set contains the
chain name css, but the list the hook hands to `declareLoaders` does not:
the two sets of names differ. -/
theorem c2_counterexample :
    ¬ (∀ n : Option JsStr,
        n ∈ beforeResolveDeclaredNames (some fooName) ↔
        n ∈ (specDeclaredNames fooName ("css!./x".toList)).map some) := by
  intro hall
  have hc : some ("css".toList) ∈ beforeResolveDeclaredNames (some fooName) :=
    (hall (some ("css".toList))).mpr (by decide)
  exact absurd hc (by decide)

/-- C2 amended: for every module resolution request the before-resolve hook
passes exactly the singleton list holding this coordinator's configured
loader entry to the resolver's declare operation; no name from the module's
loader chain string is added. -/
theorem c2_amended_only_configured_name (cfgLoader : Option JsStr) :
    beforeResolveDeclaredNames cfgLoader = [cfgLoader] ∧
    ∀ n : Option JsStr, n ∈ beforeResolveDeclaredNames cfgLoader ↔ n = cfgLoader := by
  refine ⟨rfl, fun n => ?_⟩
  simp [beforeResolveDeclaredNames]

/-- Characters that are not line terminators are consumed and deleted by the
tail of the query-stripping match. -/
theorem dropQueryTail_eq_nil {l : JsStr}
    (h : ∀ c ∈ l, isLineTerminator c = false) : dropQueryTail l = [] := by
  induction l with
  | nil => rfl
  | cons c cs ih =>
    have hc := h c (List.mem_cons_self c cs)
    simp only [dropQueryTail, hc, if_false, Bool.false_eq_true]
    exact ih fun x hx => h x (List.mem_cons_of_mem c hx)

/-- On a string without a question mark, `normalizePath` is the identity. -/
theorem normalizePath_no_query {l : JsStr}
    (h : ∀ c ∈ l, (c == '?') = false) : normalizePath l = l := by
  induction l with
  | nil => rfl
  | cons c cs ih =>
    have hc := h c (List.mem_cons_self c cs)
    simp only [normalizePath, hc, if_false, Bool.false_eq_true, List.cons.injEq,
      true_and]
    exact ih fun x hx => h x (List.mem_cons_of_mem c hx)

/-- On a string without line terminators, `normalizePath` strips everything
from the first question mark onward. -/
theorem normalizePath_eq_strip {l : JsStr}
    (h : ∀ c ∈ l, isLineTerminator c = false) :
    normalizePath l = specStripQuery l := by
  induction l with
  | nil => rfl
  | cons c cs ih =>
    by_cases hc : c = '?'
    · subst hc
      have h1 : dropQueryTail cs = [] :=
        dropQueryTail_eq_nil fun x hx => h x (List.mem_cons_of_mem _ hx)
      simp [normalizePath, specStripQuery, h1]
    · have ih' := ih fun x hx => h x (List.mem_cons_of_mem c hx)
      simp [normalizePath, specStripQuery, hc]
      simpa [specStripQuery] using ih'

/-- C10 counterexample: on the path a?b, a newline, then c, the regular
expression dot stops at the newline, so the code removes only the span
before the newline — not the whole substring from the question mark onward
as the claim states. -/
theorem c10_counterexample :
    normalizePath ('a' :: '?' :: 'b' :: '\n' :: 'c' :: []) ≠
      specStripQuery ('a' :: '?' :: 'b' :: '\n' :: 'c' :: []) ∧
    normalizePath ('a' :: '?' :: 'b' :: '\n' :: 'c' :: []) =
      'a' :: '\n' :: 'c' :: [] :=
  ⟨by decide, by decide⟩

/-- C10 amended: on every path free of line terminator characters, loading
strips the substring from the first question mark onward, and a path with a
query suffix loads the same module as its stripped form. -/
theorem c10_amended_strip_query (requireFn : JsStr → LoaderModule) (p : JsStr)
    (h : ∀ c ∈ p, isLineTerminator c = false) :
    normalizePath p = specStripQuery p ∧
    loadLoader requireFn p = loadLoader requireFn (specStripQuery p) := by
  have hmain : normalizePath p = specStripQuery p := normalizePath_eq_strip h
  refine ⟨hmain, ?_⟩
  have hnq : ∀ x ∈ specStripQuery p, (x == '?') = false := by
    intro x hx
    have htw := List.mem_takeWhile_imp hx
    simpa using htw
  unfold loadLoader
  rw [hmain, normalizePath_no_query hnq]

/-- Closed instance of the C10 amended hypothesis and conclusion, on the
path x?q with a query suffix and no line terminators. -/
theorem c10_witness :
    (∀ c ∈ ('x' :: '?' :: 'q' :: []), isLineTerminator c = false) ∧
    (normalizePath ('x' :: '?' :: 'q' :: []) =
       specStripQuery ('x' :: '?' :: 'q' :: []) ∧
     loadLoader (fun _ => plainModule) ('x' :: '?' :: 'q' :: []) =
       loadLoader (fun _ => plainModule)
         (specStripQuery ('x' :: '?' :: 'q' :: []))) :=
  ⟨by decide,
   c10_amended_strip_query (fun _ => plainModule) ('x' :: '?' :: 'q' :: [])
     (by decide)⟩

end DeferredLoader
